import Mathlib

/-!
Verification of the RAG tutorial notebooks: shallow embedding of the glue
functions (`rag`, `retrieve_documents`, `generate_answer`, `get_docs`,
`generate`, the batched ChromaDB insertion loop) together with spec-level
models of the external collaborators (the embedding encoder and the
FAISS / ChromaDB nearest-neighbour search).
-/

namespace RAGSpec

/-- Python's `sep.join(xs)`: the elements of `xs` concatenated with `sep`
between consecutive elements (empty string on the empty list). -/
def strJoin (sep : String) : List String → String
  | [] => ""
  | [x] => x
  | x :: y :: ys => x ++ sep ++ strJoin sep (y :: ys)

/-- `needle` occurs verbatim (as a contiguous substring) inside `haystack`. -/
def containsStr (needle haystack : String) : Prop :=
  ∃ p q : List Char, haystack.data = p ++ needle.data ++ q

/-- Prompt assembly of the `rag` function of the first FAISS notebook:
`input_text = " ".join(retrieved_docs) + " " + question`. -/
def rag_input_text (retrieved_docs : List String) (question : String) : String :=
  strJoin " " retrieved_docs ++ " " ++ question

/-- Prompt assembly of `generate_answer` of the second FAISS example:
`context = " ".join(retrieved_docs)` and
`input_text = f"summarize: question: ... context: ..."`. -/
def generate_answer_input_text (question : String) (retrieved_docs : List String) : String :=
  "summarize: question: " ++ question ++ " context: " ++ strJoin " " retrieved_docs

/-- The separator string the `generate` function of the ChromaDB notebook
actually passes to `str.join`: Python concatenates the four adjacent string
literals into one string, and `.join(docs)` applies to the whole of it. -/
def generate_sep : String :=
  "You are a helpful assistant that answers questions about AI using the context provided below.\n\nCONTEXT:\n\n---\n"

/-- System message built by `generate`: the concatenated literal used as the
join separator between the retrieved documents. -/
def generate_system_message (docs : List String) : String :=
  strJoin generate_sep docs

/-- A chat message as passed to the hosted chat API. -/
structure ChatMessage where
  role : String
  content : String

/-- The message list built by `generate`: the system message from the docs,
then the user message carrying the query. -/
def generate_messages (query : String) (docs : List String) : List ChatMessage :=
  [⟨"system", generate_system_message docs⟩, ⟨"user", query⟩]

/-- The full prompt `generate` sends: the concatenation of the contents of
its messages, in order. -/
def generate_prompt (query : String) (docs : List String) : String :=
  generate_system_message docs ++ query

theorem containsStr_refl (s : String) : containsStr s s :=
  ⟨[], [], by simp⟩

theorem containsStr_append_left (n a b : String) (h : containsStr n a) :
    containsStr n (a ++ b) := by
  obtain ⟨p, q, hpq⟩ := h
  exact ⟨p, q ++ b.data, by rw [String.data_append, hpq]; simp⟩

theorem containsStr_append_right (n a b : String) (h : containsStr n b) :
    containsStr n (a ++ b) := by
  obtain ⟨p, q, hpq⟩ := h
  exact ⟨a.data ++ p, q, by rw [String.data_append, hpq]; simp⟩

theorem containsStr_strJoin (sep : String) (xs : List String) (d : String)
    (hd : d ∈ xs) : containsStr d (strJoin sep xs) := by
  induction xs with
  | nil => cases hd
  | cons x ys ih =>
    cases ys with
    | nil =>
      rcases List.mem_singleton.mp hd with rfl
      exact containsStr_refl d
    | cons y zs =>
      rcases List.mem_cons.mp hd with rfl | hmem
      · show containsStr d (d ++ sep ++ strJoin sep (y :: zs))
        exact containsStr_append_left _ _ _
          (containsStr_append_left _ _ _ (containsStr_refl d))
      · show containsStr d (x ++ sep ++ strJoin sep (y :: zs))
        exact containsStr_append_right _ _ _ (ih hmem)

/-- C1: for every query and every ordered sequence of retrieved document
texts, the prompt assembled before generation contains the query text and
every retrieved document text verbatim, in each of the three assemblers:
`rag` (space-join plus question), `generate_answer` (summarize template),
and `generate` (system message joined from the docs plus user message). -/
theorem C1_prompts_contain_query_and_docs (question : String) (docs : List String) :
    (containsStr question (rag_input_text docs question)
      ∧ ∀ d, d ∈ docs → containsStr d (rag_input_text docs question))
    ∧ (containsStr question (generate_answer_input_text question docs)
      ∧ ∀ d, d ∈ docs → containsStr d (generate_answer_input_text question docs))
    ∧ (containsStr question (generate_prompt question docs)
      ∧ ∀ d, d ∈ docs → containsStr d (generate_prompt question docs)) := by
  refine ⟨⟨?_, ?_⟩, ⟨?_, ?_⟩, ⟨?_, ?_⟩⟩
  · exact containsStr_append_right _ _ _ (containsStr_refl question)
  · intro d hd
    exact containsStr_append_left _ _ _
      (containsStr_append_left _ _ _ (containsStr_strJoin " " docs d hd))
  · exact containsStr_append_left _ _ _ (containsStr_append_left _ _ _
      (containsStr_append_right _ _ _ (containsStr_refl question)))
  · intro d hd
    exact containsStr_append_right _ _ _ (containsStr_strJoin " " docs d hd)
  · exact containsStr_append_right _ _ _ (containsStr_refl question)
  · intro d hd
    exact containsStr_append_left _ _ _
      (containsStr_strJoin generate_sep docs d hd)

/-- C1 witness: the containment facts at a concrete query and document list,
obtained from the theorem with each membership hypothesis discharged. -/
theorem C1_prompts_contain_query_and_docs_witness :
    containsStr "doc one" (rag_input_text ["doc one", "doc two"] "the query")
    ∧ containsStr "doc two"
        (generate_answer_input_text "the query" ["doc one", "doc two"])
    ∧ containsStr "doc one" (generate_prompt "the query" ["doc one", "doc two"]) :=
  ⟨(C1_prompts_contain_query_and_docs "the query" ["doc one", "doc two"]).1.2
      "doc one" (by simp),
   (C1_prompts_contain_query_and_docs "the query" ["doc one", "doc two"]).2.1.2
      "doc two" (by simp),
   (C1_prompts_contain_query_and_docs "the query" ["doc one", "doc two"]).2.2.2
      "doc one" (by simp)⟩

/-! ### Spec-level model of the vector index and the embedder -/

/-- Squared L2 distance between two vectors, summed coordinatewise. -/
def l2sq (v w : List Int) : Int :=
  ((v.zip w).map (fun p => (p.1 - p.2) ^ 2)).sum

/-- Ranking order of search results: strictly smaller distance first, ties
broken by the smaller stored index (a concrete choice for the
implementation-defined tie order). -/
def distLE (a b : Nat × Int) : Prop :=
  a.2 < b.2 ∨ (a.2 = b.2 ∧ a.1 ≤ b.1)

instance : DecidableRel distLE := fun a b => by
  unfold distLE
  exact inferInstance

instance : IsTotal (Nat × Int) distLE :=
  ⟨by
    intro a b
    unfold distLE
    omega⟩

instance : IsTrans (Nat × Int) distLE :=
  ⟨by
    intro a b c hab hbc
    unfold distLE at hab hbc ⊢
    omega⟩

/-- Modelled from the spec: the flat L2 index compares the query embedding
against every stored vector; this is the list of (stored index, squared L2
distance to the query) pairs. -/
def distList (db : List (List Int)) (q : List Int) : List (Nat × Int) :=
  (List.range db.length).map (fun i => (i, l2sq q (db.getD i [])))

/-- Modelled from the spec: all candidate pairs ranked by ascending
distance. -/
def searchPairs (db : List (List Int)) (q : List Int) : List (Nat × Int) :=
  List.insertionSort distLE (distList db q)

/-- Modelled from the spec: `index.search(q, k)` on a flat L2 index holding
the vectors `db` returns the `k` nearest (index, distance) pairs, ordered by
ascending distance; fewer than `k` when the index holds fewer vectors. -/
def faissSearch (db : List (List Int)) (q : List Int) (k : Nat) : List (Nat × Int) :=
  (searchPairs db q).take k

/-- The `embed` glue of the first FAISS notebook (tokenize, run the encoder
model, mean-pool). Modelled from the spec: the external encoder, abstracted
as `enc`, yields one vector per input text, preserving input order. -/
def embed (enc : String → List Int) (texts : List String) : List (List Int) :=
  texts.map enc

/-- `embedder.encode` of the second FAISS example. Modelled from the spec:
the sentence-transformer encoder, abstracted as `enc`, yields one vector per
input text, preserving input order. -/
def encode (enc : String → List Int) (texts : List String) : List (List Int) :=
  texts.map enc

/-- The `encoder(...)` call of the ChromaDB notebook. Modelled from the
spec: one vector per input text, preserving input order. -/
def encoder_apply (enc : String → List Int) (texts : List String) : List (List Int) :=
  texts.map enc

/-- `retrieve_documents(query, k)` of the second FAISS example: encode the
query, search the index built over `encode enc documents`, and map each
returned index back to its document text, in rank order. -/
def retrieve_documents (enc : String → List Int) (documents : List String)
    (query : String) (k : Nat) : List String :=
  let query_embedding := encode enc [query]
  let pairs := faissSearch (encode enc documents) (query_embedding.getD 0 []) k
  pairs.map (fun p => documents.getD p.1 "")

/-- `rag(question, top_k)` of the first FAISS notebook: embed the question,
search the index built over `embed enc documents`, join the retrieved
documents with the question into the prompt, and run the generator `gen`. -/
def rag (enc : String → List Int) (gen : String → String)
    (documents : List String) (question : String) (top_k : Nat) : String :=
  let question_embedding := embed enc [question]
  let pairs := faissSearch (embed enc documents) (question_embedding.getD 0 []) top_k
  let retrieved_docs := pairs.map (fun p => documents.getD p.1 "")
  let input_text := rag_input_text retrieved_docs question
  gen input_text

theorem searchPairs_length (db : List (List Int)) (q : List Int) :
    (searchPairs db q).length = db.length := by
  rw [searchPairs, (List.perm_insertionSort distLE (distList db q)).length_eq]
  simp [distList]

theorem faissSearch_length (db : List (List Int)) (q : List Int) (k : Nat) :
    (faissSearch db q k).length = min k db.length := by
  rw [faissSearch, List.length_take, searchPairs_length]

theorem mem_searchPairs (db : List (List Int)) (q : List Int) (p : Nat × Int)
    (hp : p ∈ searchPairs db q) :
    p.1 < db.length ∧ p.2 = l2sq q (db.getD p.1 []) := by
  have hmem : p ∈ distList db q :=
    (List.perm_insertionSort distLE (distList db q)).mem_iff.mp hp
  simp only [distList, List.mem_map, List.mem_range] at hmem
  obtain ⟨i, hi, hip⟩ := hmem
  cases hip
  exact ⟨hi, rfl⟩

/-- C2: for every corpus of N vectors and requested top-k, the search used
by `rag` and `retrieve_documents` yields at most min(k, N) results; with
fewer than k stored vectors it returns fewer than k results; every returned
index is in range (no out-of-range placeholder indices), so the retrieved
document list has at most min(k, N) entries. -/
theorem C2_search_result_bounded (db : List (List Int)) (q : List Int) (k : Nat) :
    ((faissSearch db q k).length = min k db.length)
    ∧ (db.length < k → (faissSearch db q k).length < k)
    ∧ (∀ p ∈ faissSearch db q k, p.1 < db.length)
    ∧ (∀ (enc : String → List Int) (documents : List String) (query : String),
        (retrieve_documents enc documents query k).length = min k documents.length) := by
  refine ⟨faissSearch_length db q k, ?_, ?_, ?_⟩
  · intro hlt
    rw [faissSearch_length]
    omega
  · intro p hp
    exact (mem_searchPairs db q p (List.mem_of_mem_take hp)).1
  · intro enc documents query
    simp only [retrieve_documents, List.length_map]
    rw [faissSearch_length]
    simp [encode]

/-- C2 witness: with one stored vector and k = 2 the search returns fewer
than two results, the single result's index is in range, and
`retrieve_documents` returns exactly min(2, 1) = 1 document. -/
theorem C2_search_result_bounded_witness :
    ((faissSearch [[0]] [0] 2).length < 2)
    ∧ ((0, 0) : Nat × Int).1 < ([[0]] : List (List Int)).length
    ∧ (retrieve_documents (fun _ => [0]) ["only doc"] "query" 2).length = min 2 1 :=
  ⟨(C2_search_result_bounded [[0]] [0] 2).2.1 (by decide),
   (C2_search_result_bounded [[0]] [0] 2).2.2.1 ((0, 0) : Nat × Int) (by decide),
   (C2_search_result_bounded [[0]] [0] 2).2.2.2 (fun _ => [0]) ["only doc"] "query"⟩

/-- C3: when the requested top-k does not exceed the corpus size, the
search result is an ordered sequence of (index, distance) pairs of length
exactly k, ordered by non-decreasing distance, and `retrieve_documents`
returns the documents mapped from those pairs in exactly that rank order. -/
theorem C3_search_ranked_sequence (db : List (List Int)) (q : List Int) (k : Nat)
    (hk : k ≤ db.length) :
    ((faissSearch db q k).length = k)
    ∧ ((faissSearch db q k).Pairwise (fun a b => a.2 ≤ b.2))
    ∧ (∀ (enc : String → List Int) (documents : List String) (query : String),
        retrieve_documents enc documents query k
          = (faissSearch (encode enc documents)
              ((encode enc [query]).getD 0 []) k).map
              (fun p => documents.getD p.1 "")) := by
  refine ⟨?_, ?_, fun enc documents query => rfl⟩
  · rw [faissSearch_length]
    omega
  · have hsorted : List.Sorted distLE (searchPairs db q) :=
      List.sorted_insertionSort distLE (distList db q)
    have hpw : (faissSearch db q k).Pairwise distLE :=
      hsorted.sublist (List.take_sublist k (searchPairs db q))
    refine hpw.imp ?_
    intro a b hab
    rcases hab with h | ⟨h, _⟩
    · exact le_of_lt h
    · exact le_of_eq h

/-- C3 witness: a two-vector corpus queried with k = 2 returns exactly two
pairs, sorted by distance. -/
theorem C3_search_ranked_sequence_witness :
    (faissSearch [[0], [3]] [0] 2).length = 2 :=
  (C3_search_ranked_sequence [[0], [3]] [0] 2 (by decide)).1

theorem l2sq_cons (a b : Int) (v w : List Int) :
    l2sq (a :: v) (b :: w) = (a - b) ^ 2 + l2sq v w := by
  simp [l2sq]

theorem l2sq_self (v : List Int) : l2sq v v = 0 := by
  induction v with
  | nil => rfl
  | cons a v ih => rw [l2sq_cons, ih]; ring

theorem l2sq_nonneg (v w : List Int) : 0 ≤ l2sq v w := by
  induction v generalizing w with
  | nil => simp [l2sq]
  | cons a v ih =>
    cases w with
    | nil => simp [l2sq]
    | cons b w =>
      rw [l2sq_cons]
      exact add_nonneg (sq_nonneg _) (ih w)

theorem l2sq_eq_zero (v w : List Int) (hlen : v.length = w.length)
    (h : l2sq v w = 0) : v = w := by
  induction v generalizing w with
  | nil =>
    cases w with
    | nil => rfl
    | cons b w => simp at hlen
  | cons a v ih =>
    cases w with
    | nil => simp at hlen
    | cons b w =>
      rw [l2sq_cons] at h
      have hsq : (0 : Int) ≤ (a - b) ^ 2 := sq_nonneg _
      have hrest : (0 : Int) ≤ l2sq v w := l2sq_nonneg v w
      have hab : (a - b) ^ 2 = 0 := by linarith
      have hvw : l2sq v w = 0 := by linarith
      have hab' : a = b := by
        have := (pow_eq_zero_iff two_ne_zero).mp hab
        omega
      have : v = w := ih w (by simpa using hlen) hvw
      rw [hab', this]

theorem distLE_antisymm (a b : Nat × Int) (h1 : distLE a b) (h2 : distLE b a) :
    a = b := by
  unfold distLE at h1 h2
  have h3 : a.1 = b.1 ∧ a.2 = b.2 := by omega
  cases a
  cases b
  simp only at h3
  simp [h3.1, h3.2]

theorem getD_map_of_lt (f : List Int → List Int) (l : List (List Int)) (i : Nat)
    (h : i < l.length) : (l.map f).getD i [] = f (l.getD i []) := by
  rw [List.getD_eq_getElem?_getD, List.getD_eq_getElem?_getD, List.getElem?_map,
    List.getElem?_eq_getElem h]
  simp

theorem getD_mem_of_lt (l : List (List Int)) (i : Nat) (h : i < l.length) :
    l.getD i [] ∈ l := by
  rw [List.getD_eq_getElem?_getD, List.getElem?_eq_getElem h]
  exact List.getElem_mem h

/-- The pair (j, 0) ranks at or before every search candidate when the
query is the j-th stored vector and the stored vectors are pairwise
distinct and of one dimension. -/
theorem distLE_self_pair (db : List (List Int)) (dim j : Nat)
    (hdim : ∀ v ∈ db, v.length = dim)
    (hinj : ∀ i1 i2, i1 < db.length → i2 < db.length →
      db.getD i1 [] = db.getD i2 [] → i1 = i2)
    (hj : j < db.length) (p : Nat × Int)
    (hp : p ∈ searchPairs db (db.getD j [])) :
    distLE (j, 0) p := by
  obtain ⟨hlt, heq⟩ := mem_searchPairs db (db.getD j []) p hp
  rcases eq_or_lt_of_le (l2sq_nonneg (db.getD j []) (db.getD p.1 [])) with hz | hpos
  · have hqlen : (db.getD j []).length = dim := hdim _ (getD_mem_of_lt db j hj)
    have hplen : (db.getD p.1 []).length = dim := hdim _ (getD_mem_of_lt db p.1 hlt)
    have hvec : db.getD j [] = db.getD p.1 [] :=
      l2sq_eq_zero _ _ (hqlen.trans hplen.symm) hz.symm
    have hji : j = p.1 := hinj j p.1 hj hlt hvec
    right
    exact ⟨by omega, by omega⟩
  · left
    rw [heq]
    exact hpos

/-- Searching a flat L2 index with the j-th stored vector itself and k = 1
returns exactly the pair (j, 0), when the stored vectors are pairwise
distinct and share one dimension. -/
theorem search_self_top (db : List (List Int)) (dim j : Nat)
    (hdim : ∀ v ∈ db, v.length = dim)
    (hinj : ∀ i1 i2, i1 < db.length → i2 < db.length →
      db.getD i1 [] = db.getD i2 [] → i1 = i2)
    (hj : j < db.length) :
    faissSearch db (db.getD j []) 1 = [(j, 0)] := by
  have hj0 : ((j, 0) : Nat × Int) ∈ searchPairs db (db.getD j []) := by
    apply (List.perm_insertionSort distLE (distList db (db.getD j []))).mem_iff.mpr
    simp only [distList, List.mem_map, List.mem_range]
    exact ⟨j, hj, by rw [l2sq_self]⟩
  have hsorted : List.Sorted distLE (searchPairs db (db.getD j [])) :=
    List.sorted_insertionSort distLE (distList db (db.getD j []))
  rw [faissSearch]
  cases hS : searchPairs db (db.getD j []) with
  | nil => rw [hS] at hj0; cases hj0
  | cons hd t =>
    have hhd_mem : hd ∈ searchPairs db (db.getD j []) := by
      rw [hS]; exact List.mem_cons_self hd t
    have hmin : distLE (j, 0) hd := distLE_self_pair db dim j hdim hinj hj hd hhd_mem
    rw [hS] at hj0
    rcases List.mem_cons.mp hj0 with hcase | hcase
    · simp [hcase]
    · rw [hS] at hsorted
      have hback : distLE hd (j, 0) := (List.sorted_cons.mp hsorted).1 _ hcase
      have : hd = (j, 0) := distLE_antisymm hd (j, 0) hback hmin
      simp [this]

/-- C4: with pairwise-distinct document embeddings of one dimension (an
exact-match-preserving embedder), querying with k = 1 for a text identical
to the j-th stored document hits exactly that document: the search returns
the pair (j, 0) and `retrieve_documents` returns that document alone. -/
theorem C4_exact_match_top_hit (enc : String → List Int) (documents : List String)
    (dim j : Nat)
    (hdim : ∀ d ∈ documents, (enc d).length = dim)
    (hinj : ∀ i1 i2, i1 < documents.length → i2 < documents.length →
      enc (documents.getD i1 "") = enc (documents.getD i2 "") → i1 = i2)
    (hj : j < documents.length) :
    faissSearch (encode enc documents) (enc (documents.getD j "")) 1 = [(j, 0)]
    ∧ retrieve_documents enc documents (documents.getD j "") 1
        = [documents.getD j ""] := by
  have hlen : (encode enc documents).length = documents.length := by
    simp [encode]
  have hgd : ∀ i, i < documents.length →
      (encode enc documents).getD i [] = enc (documents.getD i "") := by
    intro i hi
    show (documents.map enc).getD i [] = enc (documents.getD i "")
    rw [List.getD_eq_getElem?_getD, List.getD_eq_getElem?_getD, List.getElem?_map,
      List.getElem?_eq_getElem hi]
    simp
  have hdim' : ∀ v ∈ encode enc documents, v.length = dim := by
    intro v hv
    obtain ⟨d, hd, rfl⟩ := List.mem_map.mp hv
    exact hdim d hd
  have hinj' : ∀ i1 i2, i1 < (encode enc documents).length →
      i2 < (encode enc documents).length →
      (encode enc documents).getD i1 [] = (encode enc documents).getD i2 [] →
      i1 = i2 := by
    intro i1 i2 h1 h2 hv
    rw [hlen] at h1 h2
    rw [hgd i1 h1, hgd i2 h2] at hv
    exact hinj i1 i2 h1 h2 hv
  have hj' : j < (encode enc documents).length := by rw [hlen]; exact hj
  have hsearch : faissSearch (encode enc documents) (enc (documents.getD j "")) 1
      = [(j, 0)] := by
    rw [← hgd j hj]
    exact search_self_top (encode enc documents) dim j hdim' hinj' hj'
  refine ⟨hsearch, ?_⟩
  show ((faissSearch (encode enc documents)
      ((encode enc [documents.getD j ""]).getD 0 []) 1).map
        (fun p => documents.getD p.1 "")) = [documents.getD j ""]
  have hq : (encode enc [documents.getD j ""]).getD 0 [] = enc (documents.getD j "") := rfl
  rw [hq, hsearch]
  rfl

/-- C4 witness: two documents with distinct two-dimensional embeddings;
the query identical to document 0 returns exactly document 0. -/
theorem C4_exact_match_top_hit_witness :
    retrieve_documents (fun s => [Int.ofNat s.length, 1]) ["a", "bb"]
        ((["a", "bb"] : List String).getD 0 "") 1
      = [(["a", "bb"] : List String).getD 0 ""] :=
  (C4_exact_match_top_hit (fun s => [Int.ofNat s.length, 1]) ["a", "bb"] 2 0
    (by decide)
    (by
      intro i1 i2 h1 h2 heq
      simp only [List.length_cons, List.length_nil] at h1 h2
      interval_cases i1 <;> interval_cases i2 <;>
        first
        | rfl
        | exact absurd heq (by decide))
    (by decide)).2

/-! ### Embedder contract and the same-embedder invariant -/

/-- The vector the first notebook stores in the index for the i-th document
(`document_embeddings = embed(documents)`). -/
def rag_stored_vector (enc : String → List Int) (documents : List String)
    (i : Nat) : List Int :=
  (embed enc documents).getD i []

/-- The vector the `rag` function computes for the question at query time
(`question_embedding = embed([question])`). -/
def rag_query_vector (enc : String → List Int) (question : String) : List Int :=
  (embed enc [question]).getD 0 []

/-- The vector the second FAISS example stores for the i-th document
(`document_embeddings = embedder.encode(documents)`). -/
def retrieve_stored_vector (enc : String → List Int) (documents : List String)
    (i : Nat) : List Int :=
  (encode enc documents).getD i []

/-- The vector `retrieve_documents` computes for the query
(`query_embedding = embedder.encode([query])`). -/
def retrieve_query_vector (enc : String → List Int) (query : String) : List Int :=
  (encode enc [query]).getD 0 []

/-- The vector the ChromaDB notebook stores for the i-th chunk
(`embeds = encoder(chunks)`). -/
def chroma_stored_vector (enc : String → List Int) (chunks : List String)
    (i : Nat) : List Int :=
  (encoder_apply enc chunks).getD i []

/-- The vector `get_docs` computes for the query (`xq = encoder([query])`). -/
def chroma_query_vector (enc : String → List Int) (query : String) : List Int :=
  (encoder_apply enc [query]).getD 0 []

/-- C5: the embedding function is deterministic: two runs of `embed` on the
same input list of texts under the same fixed model produce identical
output vectors. -/
theorem C5_embed_deterministic (enc : String → List Int) (texts : List String)
    (out1 out2 : List (List Int))
    (h1 : out1 = embed enc texts) (h2 : out2 = embed enc texts) :
    out1 = out2 :=
  h1.trans h2.symm

/-- C5 witness: two runs on a concrete text list agree. -/
theorem C5_embed_deterministic_witness :
    embed (fun s => [Int.ofNat s.length]) ["x", "yz"]
      = embed (fun s => [Int.ofNat s.length]) ["x", "yz"] :=
  C5_embed_deterministic (fun s => [Int.ofNat s.length]) ["x", "yz"]
    (embed (fun s => [Int.ofNat s.length]) ["x", "yz"])
    (embed (fun s => [Int.ofNat s.length]) ["x", "yz"]) rfl rfl

/-- C6: the embedder returns exactly one vector per input text, all of the
model dimension, with the i-th output vector the encoding of the i-th input
text (input order preserved). -/
theorem C6_embed_shape (enc : String → List Int) (dim : Nat) (texts : List String)
    (henc : ∀ t, (enc t).length = dim) :
    ((embed enc texts).length = texts.length)
    ∧ (∀ v ∈ embed enc texts, v.length = dim)
    ∧ (∀ i, i < texts.length →
        (embed enc texts).getD i [] = enc (texts.getD i "")) := by
  refine ⟨by simp [embed], ?_, ?_⟩
  · intro v hv
    obtain ⟨t, ht, rfl⟩ := List.mem_map.mp hv
    exact henc t
  · intro i hi
    show (texts.map enc).getD i [] = enc (texts.getD i "")
    rw [List.getD_eq_getElem?_getD, List.getD_eq_getElem?_getD, List.getElem?_map,
      List.getElem?_eq_getElem hi]
    simp

/-- C6 witness: on two concrete texts the second output vector is the
encoding of the second input text. -/
theorem C6_embed_shape_witness :
    (embed (fun _ => ([5, 7] : List Int)) ["a", "b"]).getD 1 []
      = (fun _ => ([5, 7] : List Int)) ((["a", "b"] : List String).getD 1 "") :=
  (C6_embed_shape (fun _ => ([5, 7] : List Int)) 2 ["a", "b"]
    (fun _ => rfl)).2.2 1 (by decide)

/-- C7: in each of the three pipelines the embedder applied at index-build
time and the embedder applied at query time are the identical function: a
query whose text equals the i-th indexed text is mapped to exactly the
vector stored at position i. -/
theorem C7_same_embedder (enc : String → List Int)
    (documents chunks : List String) (i : Nat)
    (hi : i < documents.length) (hic : i < chunks.length) :
    (rag_stored_vector enc documents i
      = rag_query_vector enc (documents.getD i ""))
    ∧ (retrieve_stored_vector enc documents i
      = retrieve_query_vector enc (documents.getD i ""))
    ∧ (chroma_stored_vector enc chunks i
      = chroma_query_vector enc (chunks.getD i "")) := by
  have hmap : ∀ (l : List String) (j : Nat), j < l.length →
      (l.map enc).getD j [] = enc (l.getD j "") := by
    intro l j hj
    rw [List.getD_eq_getElem?_getD, List.getD_eq_getElem?_getD, List.getElem?_map,
      List.getElem?_eq_getElem hj]
    simp
  exact ⟨hmap documents i hi, hmap documents i hi, hmap chunks i hic⟩

/-- C7 witness: with a concrete encoder and corpus, the stored vector of
document 0 equals the query-time vector of the same text, in all three
pipelines. -/
theorem C7_same_embedder_witness :
    (rag_stored_vector (fun s => [Int.ofNat s.length]) ["aa", "b"] 0
      = rag_query_vector (fun s => [Int.ofNat s.length])
          ((["aa", "b"] : List String).getD 0 ""))
    ∧ (chroma_stored_vector (fun s => [Int.ofNat s.length]) ["cc"] 0
      = chroma_query_vector (fun s => [Int.ofNat s.length])
          ((["cc"] : List String).getD 0 "")) :=
  ⟨(C7_same_embedder (fun s => [Int.ofNat s.length]) ["aa", "b"] ["cc"] 0
      (by decide) (by decide)).1,
   (C7_same_embedder (fun s => [Int.ofNat s.length]) ["aa", "b"] ["cc"] 0
      (by decide) (by decide)).2.2⟩

/-! ### Query-time state (frame property) -/

/-- The shared state of the FAISS examples at query time: the already-built
index contents and the loaded document list. -/
structure FaissState where
  indexVecs : List (List Int)
  documents : List String

/-- Python's `d.get(key, default)` on a string-keyed metadata mapping,
modelled as an association list with unique keys. -/
def dictGetD (m : List (String × String)) (key dflt : String) : String :=
  match m.find? (fun kv => kv.1 == key) with
  | some kv => kv.2
  | none => dflt

/-- The already-built ChromaDB collection: ids, stored embeddings and
metadata records, positionally aligned. -/
structure ChromaCollection where
  ids : List String
  embeddings : List (List Int)
  metadatas : List (List (String × String))

/-- Modelled from the spec: `collection.query(query_embeddings, n_results)`
returns, for each query embedding row, the metadata records of the top
`n_results` nearest stored embeddings, nested one sublist per query row. -/
def collection_query (col : ChromaCollection) (xq : List (List Int))
    (n_results : Nat) : List (List (List (String × String))) :=
  xq.map (fun q =>
    (faissSearch col.embeddings q n_results).map
      (fun p => col.metadatas.getD p.1 []))

/-- The flattening comprehension of `get_docs`:
`[metadata.get("content", "") for sublist in results["metadatas"] for metadata in sublist]`. -/
def get_docs_extract (metadatas : List (List (List (String × String)))) : List String :=
  (metadatas.map (fun sublist =>
    sublist.map (fun metadata => dictGetD metadata "content" ""))).flatten

/-- `get_docs(query, top_k, collection)` of the ChromaDB notebook: encode
the query, query the collection, and flatten the returned metadata into the
list of content strings. -/
def get_docs (enc : String → List Int) (query : String) (top_k : Nat)
    (collection : ChromaCollection) : List String :=
  let xq := encoder_apply enc [query]
  let results := collection_query collection xq top_k
  get_docs_extract results

/-- `rag` as a state-passing operation over the query-time state: it reads
the index and documents and returns them unchanged. -/
def rag_op (enc : String → List Int) (gen : String → String)
    (st : FaissState) (question : String) (top_k : Nat) : String × FaissState :=
  let question_embedding := embed enc [question]
  let pairs := faissSearch st.indexVecs (question_embedding.getD 0 []) top_k
  let retrieved_docs := pairs.map (fun p => st.documents.getD p.1 "")
  (gen (rag_input_text retrieved_docs question), st)

/-- `retrieve_documents` as a state-passing operation. -/
def retrieve_documents_op (enc : String → List Int) (st : FaissState)
    (query : String) (k : Nat) : List String × FaissState :=
  let query_embedding := encode enc [query]
  let pairs := faissSearch st.indexVecs (query_embedding.getD 0 []) k
  (pairs.map (fun p => st.documents.getD p.1 ""), st)

/-- `generate_answer` as a state-passing operation: it only assembles the
prompt and calls the generator. -/
def generate_answer_op (gen : String → String) (st : FaissState)
    (question : String) (retrieved_docs : List String) : String × FaissState :=
  (gen (generate_answer_input_text question retrieved_docs), st)

/-- `get_docs` as a state-passing operation over the collection. -/
def get_docs_op (enc : String → List Int) (st : ChromaCollection)
    (query : String) (top_k : Nat) : List String × ChromaCollection :=
  (get_docs enc query top_k st, st)

/-- `generate` as a state-passing operation: it builds the messages and
calls the hosted chat model `llm`. -/
def generate_op (llm : List ChatMessage → String) (st : ChromaCollection)
    (query : String) (docs : List String) : String × ChromaCollection :=
  (llm (generate_messages query docs), st)

/-- C8: every query-time operation (`rag`, `retrieve_documents`,
`generate_answer`, `get_docs`, `generate`) leaves the already-built index
contents and the document corpus exactly as they were before the call. -/
theorem C8_query_ops_frame (enc : String → List Int) (gen : String → String)
    (llm : List ChatMessage → String) (st : FaissState) (cst : ChromaCollection)
    (question query : String) (k : Nat) (docs : List String) :
    ((rag_op enc gen st question k).2 = st)
    ∧ ((retrieve_documents_op enc st query k).2 = st)
    ∧ ((generate_answer_op gen st question docs).2 = st)
    ∧ ((get_docs_op enc cst query k).2 = cst)
    ∧ ((generate_op llm cst query docs).2 = cst) :=
  ⟨rfl, rfl, rfl, rfl, rfl⟩

/-- C9: `get_docs` is total over the retrieved metadata: its output
flattens all result sublists in order (one entry per record, length the sum
of the sublist lengths, each record's entry present), and a record whose
metadata mapping lacks the "content" key contributes the empty string ""
instead of failing. -/
theorem C9_get_docs_total_flatten
    (metadatas : List (List (List (String × String))))
    (sub : List (List (String × String))) (m : List (String × String))
    (hsub : sub ∈ metadatas) (hm : m ∈ sub) :
    ((get_docs_extract metadatas).length = (metadatas.map List.length).sum)
    ∧ (dictGetD m "content" "" ∈ get_docs_extract metadatas)
    ∧ ((∀ kv ∈ m, kv.1 ≠ "content") → dictGetD m "content" "" = "") := by
  refine ⟨?_, ?_, ?_⟩
  · simp [get_docs_extract, List.map_map, Function.comp_def]
  · apply List.mem_flatten.mpr
    refine ⟨sub.map (fun metadata => dictGetD metadata "content" ""), ?_, ?_⟩
    · exact List.mem_map_of_mem _ hsub
    · exact List.mem_map_of_mem _ hm
  · intro hnone
    unfold dictGetD
    have hfind : m.find? (fun kv => kv.1 == "content") = none := by
      apply List.find?_eq_none.mpr
      intro kv hkv
      simpa using hnone kv hkv
    rw [hfind]

/-- C9 witness: a record carrying only a "title" key yields "" and the
extraction flattens the nested sublists. -/
theorem C9_get_docs_total_flatten_witness :
    (dictGetD [("title", "t")] "content" "" = "")
    ∧ (dictGetD [("title", "t")] "content" ""
        ∈ get_docs_extract [[[("title", "t")]], [[("content", "c")]]]) :=
  ⟨(C9_get_docs_total_flatten [[[("title", "t")]], [[("content", "c")]]]
      [[("title", "t")]] [("title", "t")] (by simp) (by simp)).2.2 (by decide),
   (C9_get_docs_total_flatten [[[("title", "t")]], [[("content", "c")]]]
      [[("title", "t")]] [("title", "t")] (by simp) (by simp)).2.1⟩

/-! ### Batched ChromaDB insertion loop -/

/-- One dataset row: its unique id and its metadata record. -/
structure Row where
  id : String
  metadata : List (String × String)

/-- Python's `range(start, stop, step)` for a positive step, with
structural fuel: `stop - start` iterations always suffice because each
step advances the cursor by at least one. -/
def pyRangeStepAux (step : Nat) : Nat → Nat → Nat → List Nat
  | 0, _, _ => []
  | fuel + 1, start, stop =>
    if start < stop then start :: pyRangeStepAux step fuel (start + step) stop
    else []

/-- Python's `range(start, stop, step)` (empty for a zero step, which
Python would reject). -/
def pyRangeStep (start stop step : Nat) : List Nat :=
  if 0 < step then pyRangeStepAux step (stop - start) start stop else []

/-- Python's slice `data[i:j]` for `0 ≤ i ≤ j`, clamped at the length. -/
def pySlice (l : List Row) (i j : Nat) : List Row :=
  (l.take j).drop i

/-- The loop header `range(0, len(data), batch_size)` with batch size 128. -/
def batchStarts (n : Nat) : List Nat :=
  pyRangeStep 0 n 128

/-- The batch `data[i:i_end]` with `i_end = min(len(data), i + batch_size)`. -/
def getBatch (data : List Row) (i : Nat) : List Row :=
  pySlice data i (min data.length (i + 128))

/-- `batch_metadata = batch['metadata']`: the metadata column of a batch. -/
def batch_metadata (b : List Row) : List (List (String × String)) :=
  b.map Row.metadata

/-- `ids = batch['id']`: the id column of a batch. -/
def batch_ids (b : List Row) : List String :=
  b.map Row.id

/-- The chunk text built from one metadata record:
`f'TITLE: CONTENT'` via the "title" and "content" keys. -/
def chunk_of (m : List (String × String)) : String :=
  dictGetD m "title" "" ++ ": " ++ dictGetD m "content" ""

/-- `chunks = [f'...' for x in batch_metadata]`. -/
def batch_chunks (b : List Row) : List String :=
  (batch_metadata b).map chunk_of

/-- `embeds = encoder(chunks)`. -/
def batch_embeds (enc : String → List Int) (b : List Row) : List (List Int) :=
  encoder_apply enc (batch_chunks b)

theorem pyRangeStepAux_fuel (step : Nat) :
    ∀ fuel1 fuel2 start stop, 0 < step → stop - start ≤ fuel1 → stop - start ≤ fuel2 →
      pyRangeStepAux step fuel1 start stop = pyRangeStepAux step fuel2 start stop := by
  intro fuel1
  induction fuel1 with
  | zero =>
    intro fuel2 start stop hstep h1 h2
    have hns : ¬ start < stop := by omega
    cases fuel2 with
    | zero => rfl
    | succ f => simp [pyRangeStepAux, hns]
  | succ f1 ih =>
    intro fuel2 start stop hstep h1 h2
    cases fuel2 with
    | zero =>
      have hns : ¬ start < stop := by omega
      simp [pyRangeStepAux, hns]
    | succ f2 =>
      by_cases hlt : start < stop
      · simp only [pyRangeStepAux, if_pos hlt]
        rw [ih f2 (start + step) stop hstep (by omega) (by omega)]
      · simp [pyRangeStepAux, hlt]

theorem pyRangeStep_unfold (start stop step : Nat) (hstep : 0 < step) :
    pyRangeStep start stop step =
      if start < stop then start :: pyRangeStep (start + step) stop step
      else [] := by
  by_cases hlt : start < stop
  · rw [if_pos hlt, pyRangeStep, if_pos hstep, pyRangeStep, if_pos hstep]
    have h1 : stop - start = (stop - start - 1) + 1 := by omega
    rw [h1]
    simp only [pyRangeStepAux, if_pos hlt]
    congr 1
    exact pyRangeStepAux_fuel step (stop - start - 1) (stop - (start + step))
      (start + step) stop hstep (by omega) (by omega)
  · rw [if_neg hlt, pyRangeStep, if_pos hstep]
    have h0 : stop - start = 0 := by omega
    rw [h0]
    rfl

theorem batches_flatten_aux (l : List Row) (step : Nat) (hstep : 0 < step) :
    ∀ fuel start, l.length - start ≤ fuel →
      ((pyRangeStep start l.length step).map
        (fun i => pySlice l i (min l.length (i + step)))).flatten = l.drop start := by
  intro fuel
  induction fuel with
  | zero =>
    intro start h
    rw [pyRangeStep_unfold _ _ _ hstep, if_neg (by omega)]
    simp [List.drop_eq_nil_of_le (by omega : l.length ≤ start)]
  | succ f ih =>
    intro start h
    rw [pyRangeStep_unfold _ _ _ hstep]
    by_cases hlt : start < l.length
    · rw [if_pos hlt]
      simp only [List.map_cons, List.flatten_cons]
      rw [ih (start + step) (by omega)]
      rw [pySlice]
      have htake : l.take (min l.length (start + step)) = l.take (start + step) := by
        rcases le_total l.length (start + step) with hc | hc
        · rw [min_eq_left hc, List.take_length, List.take_of_length_le hc]
        · rw [min_eq_right hc]
      rw [htake, List.drop_take]
      have hstep' : start + step - start = step := by omega
      rw [hstep']
      conv_rhs => rw [← List.take_append_drop step (l.drop start)]
      congr 1
      rw [List.drop_drop]
    · rw [if_neg hlt]
      simp [List.drop_eq_nil_of_le (by omega : l.length ≤ start)]

/-- C10: the batched insertion loop partitions the dataset: the batches are
consecutive slices of at most 128 rows whose concatenation is the whole
dataset (every row added exactly once, in order), and both in-loop
assertions hold on every batch: the metadata list, the ids list and the
embeddings list all have equal length. -/
theorem C10_batch_loop_partition (data : List Row) (enc : String → List Int) :
    (((batchStarts data.length).map (fun i => getBatch data i)).flatten = data)
    ∧ (∀ i ∈ batchStarts data.length, (getBatch data i).length ≤ 128)
    ∧ (∀ i ∈ batchStarts data.length,
        (batch_metadata (getBatch data i)).length
            = (batch_ids (getBatch data i)).length
        ∧ (batch_embeds enc (getBatch data i)).length
            = (batch_ids (getBatch data i)).length) := by
  refine ⟨?_, ?_, ?_⟩
  · have hmain := batches_flatten_aux data 128 (by omega) data.length 0 (by omega)
    simpa [batchStarts, getBatch] using hmain
  · intro i hi
    rw [getBatch, pySlice]
    simp only [List.length_drop, List.length_take]
    omega
  · intro i hi
    constructor
    · simp [batch_metadata, batch_ids]
    · simp [batch_embeds, batch_chunks, encoder_apply, batch_metadata, batch_ids]

set_option maxRecDepth 4000 in
/-- C10 witness: a 130-row dataset is split into the batches starting at 0
and 128; the second batch has at most 128 rows and satisfies the in-loop
length assertions. -/
theorem C10_batch_loop_partition_witness :
    ((getBatch (List.replicate 130 ⟨"x", []⟩) 128).length ≤ 128)
    ∧ ((batch_metadata (getBatch (List.replicate 130 ⟨"x", []⟩) 128)).length
        = (batch_ids (getBatch (List.replicate 130 ⟨"x", []⟩) 128)).length) :=
  ⟨(C10_batch_loop_partition (List.replicate 130 ⟨"x", []⟩) (fun _ => [])).2.1
      128 (by decide),
   ((C10_batch_loop_partition (List.replicate 130 ⟨"x", []⟩) (fun _ => [])).2.2
      128 (by decide)).1⟩

end RAGSpec
